import Mathlib

/-!
Verification of the podcast-digest pipeline core against its specification.

The development shallowly embeds the TypeScript sources:
* src/audio/processor.ts — chunked analysis engine (analyzeContent,
  splitIntoChunks, normalizeAnalysisResult),
* src/utils/retry.ts — withRetry backoff primitive,
* src/pipeline/processor.ts — per-episode orchestrator and audit aggregation.

JavaScript strings are modelled as a length together with a code-unit
indexing function (constant-time charAt, as in JS).  The fractional
threshold comparison lastNewline > start + maxChars * 0.7 is embedded as
the exact integer comparison 10*lastNewline > 10*start + 7*maxChars; for
the budgets that occur in this development (8000 in production, 10 in the
concrete counterexamples) the IEEE-754 double value of maxChars * 0.7 is
exactly 7*maxChars/10 (8000 * 0.7 = 5600.0 and 10 * 0.7 = 7.0 exactly),
so the embedded comparison agrees with the JavaScript one.
-/

namespace PodcastDigest

/-- A JavaScript string: a length and a code-unit indexing function
(values of charAt at indices ≥ len are irrelevant to all operations). -/
structure JsString where
  len : Nat
  charAt : Nat → Char

/-- The character list denoted by a JsString. -/
def JsString.toList (s : JsString) : List Char :=
  (List.range s.len).map s.charAt

/-- Backward scan for String.prototype.lastIndexOf with a single-character
search string: greatest index i ≤ k with charAt i = c. -/
def lastIndexOfAux (s : JsString) (c : Char) : Nat → Option Nat
  | 0 => if s.charAt 0 = c then some 0 else none
  | k + 1 => if s.charAt (k + 1) = c then some (k + 1) else lastIndexOfAux s c k

/-- ECMA-262 String.prototype.lastIndexOf(c, fromIdx) for a one-character
search string: the greatest index i ≤ min fromIdx (len-1) with charAt i = c,
none (JS: -1) when there is no occurrence. -/
def lastIndexOf (s : JsString) (c : Char) (fromIdx : Nat) : Option Nat :=
  if s.len = 0 then none else lastIndexOfAux s c (min fromIdx (s.len - 1))

/-- Backward scan for a two-character search string. -/
def lastIndexOf2Aux (s : JsString) (c₁ c₂ : Char) : Nat → Option Nat
  | 0 => if s.charAt 0 = c₁ ∧ s.charAt 1 = c₂ then some 0 else none
  | k + 1 =>
    if s.charAt (k + 1) = c₁ ∧ s.charAt (k + 2) = c₂ then some (k + 1)
    else lastIndexOf2Aux s c₁ c₂ k

/-- ECMA-262 String.prototype.lastIndexOf(c₁c₂, fromIdx) for a
two-character search string: the greatest index i ≤ min fromIdx (len-2)
such that charAt i = c₁ and charAt (i+1) = c₂ (the match must fit inside
the string). -/
def lastIndexOf2 (s : JsString) (c₁ c₂ : Char) (fromIdx : Nat) : Option Nat :=
  if s.len < 2 then none else lastIndexOf2Aux s c₁ c₂ (min fromIdx (s.len - 2))

/-- A JS lastIndexOf result as the number JS sees: -1 for no match. -/
def jsIdx : Option Nat → Int
  | none => -1
  | some n => n

/-- ECMA-262 String.prototype.substring(a, b) as a character list:
indices are clamped to the string length and swapped when out of order. -/
def JsString.substring (s : JsString) (a b : Nat) : List Char :=
  let a' := min a s.len
  let b' := min b s.len
  let lo := min a' b'
  let hi := max a' b'
  (List.range (hi - lo)).map (fun i => s.charAt (lo + i))

/-- The boundary choice of one iteration of the splitIntoChunks loop
(src/audio/processor.ts lines 402-424): start from the raw budget offset
start + maxChars; prefer the last newline at or before it when that
newline lies strictly past 70% of the budget; otherwise fall back to the
last sentence-terminal punctuation (。, ". ", ！, ？) past the same
threshold; otherwise keep the raw offset. -/
def chunkEnd (text : JsString) (maxChars start : Nat) : Nat :=
  let e := start + maxChars
  let lastNewline := jsIdx (lastIndexOf text '\n' e)
  if 10 * lastNewline > 10 * (start : Int) + 7 * (maxChars : Int) then
    (lastNewline + 1).toNat
  else
    let lastPeriod :=
      max (max (jsIdx (lastIndexOf text '。' e)) (jsIdx (lastIndexOf2 text '.' ' ' e)))
        (max (jsIdx (lastIndexOf text '！' e)) (jsIdx (lastIndexOf text '？' e)))
    if 10 * lastPeriod > 10 * (start : Int) + 7 * (maxChars : Int) then
      (lastPeriod + 1).toNat
    else e

/-- The while-loop of splitIntoChunks, with explicit fuel.  For
maxChars ≥ 1 every iteration advances start by at least one, so fuel
text.len is always sufficient (the fuel-exhausted branch is never hit). -/
def splitLoop (text : JsString) (maxChars : Nat) : Nat → Nat → List (List Char)
  | _, 0 => []
  | start, fuel + 1 =>
    if start < text.len then
      if start + maxChars ≥ text.len then
        [text.substring start text.len]
      else
        let e := chunkEnd text maxChars start
        text.substring start e :: splitLoop text maxChars e fuel
    else []

/-- splitIntoChunks (src/audio/processor.ts lines 395-431): texts at or
below the budget come back whole; longer texts are split by the loop. -/
def splitIntoChunks (text : JsString) (maxChars : Nat) : List (List Char) :=
  if text.len ≤ maxChars then [text.toList]
  else splitLoop text maxChars 0 text.len

-- Production constants from src/audio/processor.ts lines 161-163.
def SINGLE_ANALYSIS_MAX_CHARS : Nat := 10000
def CHUNK_MAX_CHARS : Nat := 8000

/-- The kinds of model requests issued by analyzeContent. -/
inductive ModelCall
  | singlePass
  | chunkSummary
  | mergeCall
  deriving DecidableEq

/-- The requests analyzeContent issues for a transcript, in order, under
the assumption that every withRetry-wrapped call succeeds on its first
attempt (src/audio/processor.ts lines 202-229 and 277-390): short
transcripts get one single-pass structured request; long ones get one
chunk-summary request per chunk of splitIntoChunks followed by one merge
request. -/
def analysisCallTrace (t : JsString) : List ModelCall :=
  if t.len ≤ SINGLE_ANALYSIS_MAX_CHARS then [.singlePass]
  else (splitIntoChunks t CHUNK_MAX_CHARS).map (fun _ => .chunkSummary) ++ [.mergeCall]

/-- A 13-character text whose single newline sits exactly at index 10,
i.e. at start + maxChars for budget 10 from start 0. -/
def demoText : JsString := ⟨13, fun n => if n = 10 then '\n' else 'a'⟩

/-! ### Specification lemmas for the lastIndexOf primitives -/

lemma lastIndexOfAux_le {s : JsString} {c : Char} {k j : Nat}
    (h : lastIndexOfAux s c k = some j) : j ≤ k := by
  induction k with
  | zero =>
    by_cases hc : s.charAt 0 = c <;> simp [lastIndexOfAux, hc] at h
    omega
  | succ k ih =>
    by_cases hc : s.charAt (k + 1) = c <;> simp [lastIndexOfAux, hc] at h
    · omega
    · exact Nat.le_succ_of_le (ih h)

lemma lastIndexOfAux_charAt {s : JsString} {c : Char} {k j : Nat}
    (h : lastIndexOfAux s c k = some j) : s.charAt j = c := by
  induction k with
  | zero =>
    by_cases hc : s.charAt 0 = c <;> simp [lastIndexOfAux, hc] at h
    exact h ▸ hc
  | succ k ih =>
    by_cases hc : s.charAt (k + 1) = c <;> simp [lastIndexOfAux, hc] at h
    · exact h ▸ hc
    · exact ih h

lemma lastIndexOfAux_maximal {s : JsString} {c : Char} {k j : Nat}
    (h : lastIndexOfAux s c k = some j) :
    ∀ i, j < i → i ≤ k → s.charAt i ≠ c := by
  induction k with
  | zero => intro i h1 h2; omega
  | succ k ih =>
    by_cases hc : s.charAt (k + 1) = c <;> simp [lastIndexOfAux, hc] at h
    · intro i h1 h2; omega
    · intro i h1 h2
      rcases Nat.lt_or_ge i (k + 1) with hik | hik
      · exact ih h i h1 (by omega)
      · have : i = k + 1 := by omega
        exact this ▸ hc

lemma lastIndexOfAux_none {s : JsString} {c : Char} {k : Nat}
    (h : ∀ i, i ≤ k → s.charAt i ≠ c) : lastIndexOfAux s c k = none := by
  induction k with
  | zero => simp [lastIndexOfAux, h 0 (by omega)]
  | succ k ih =>
    simp [lastIndexOfAux, h (k + 1) (by omega)]
    exact ih fun i hi => h i (by omega)

lemma lastIndexOfAux_some_of {s : JsString} {c : Char} {k j : Nat}
    (hj : s.charAt j = c) (hjk : j ≤ k)
    (hmax : ∀ i, j < i → i ≤ k → s.charAt i ≠ c) :
    lastIndexOfAux s c k = some j := by
  induction k with
  | zero =>
    have : j = 0 := by omega
    subst this
    simp [lastIndexOfAux, hj]
  | succ k ih =>
    rcases Nat.lt_or_ge j (k + 1) with hjk' | hjk'
    · have hne : s.charAt (k + 1) ≠ c := hmax (k + 1) (by omega) (by omega)
      simp [lastIndexOfAux, hne]
      exact ih (by omega) fun i h1 h2 => hmax i h1 (by omega)
    · have : j = k + 1 := by omega
      subst this
      simp [lastIndexOfAux, hj]

lemma lastIndexOf2Aux_le {s : JsString} {c₁ c₂ : Char} {k j : Nat}
    (h : lastIndexOf2Aux s c₁ c₂ k = some j) : j ≤ k := by
  induction k with
  | zero =>
    by_cases hc : s.charAt 0 = c₁ ∧ s.charAt 1 = c₂ <;>
      simp [lastIndexOf2Aux, hc] at h
    omega
  | succ k ih =>
    by_cases hc : s.charAt (k + 1) = c₁ ∧ s.charAt (k + 2) = c₂ <;>
      simp [lastIndexOf2Aux, hc] at h
    · omega
    · exact Nat.le_succ_of_le (ih h)

lemma lastIndexOf2Aux_charAt {s : JsString} {c₁ c₂ : Char} {k j : Nat}
    (h : lastIndexOf2Aux s c₁ c₂ k = some j) :
    s.charAt j = c₁ ∧ s.charAt (j + 1) = c₂ := by
  induction k with
  | zero =>
    by_cases hc : s.charAt 0 = c₁ ∧ s.charAt 1 = c₂ <;>
      simp [lastIndexOf2Aux, hc] at h
    exact h ▸ hc
  | succ k ih =>
    by_cases hc : s.charAt (k + 1) = c₁ ∧ s.charAt (k + 2) = c₂ <;>
      simp [lastIndexOf2Aux, hc] at h
    · exact h ▸ hc
    · exact ih h

lemma lastIndexOf2Aux_maximal {s : JsString} {c₁ c₂ : Char} {k j : Nat}
    (h : lastIndexOf2Aux s c₁ c₂ k = some j) :
    ∀ i, j < i → i ≤ k → ¬(s.charAt i = c₁ ∧ s.charAt (i + 1) = c₂) := by
  induction k with
  | zero => intro i h1 h2; omega
  | succ k ih =>
    by_cases hc : s.charAt (k + 1) = c₁ ∧ s.charAt (k + 2) = c₂ <;>
      simp [lastIndexOf2Aux, hc] at h
    · intro i h1 h2; omega
    · intro i h1 h2
      rcases Nat.lt_or_ge i (k + 1) with hik | hik
      · exact ih h i h1 (by omega)
      · have hi : i = k + 1 := by omega
        subst hi
        intro hpair
        exact hc ⟨hpair.1, hpair.2⟩

lemma lastIndexOf2Aux_none {s : JsString} {c₁ c₂ : Char} {k : Nat}
    (h : ∀ i, i ≤ k → ¬(s.charAt i = c₁ ∧ s.charAt (i + 1) = c₂)) :
    lastIndexOf2Aux s c₁ c₂ k = none := by
  induction k with
  | zero =>
    have := h 0 (by omega)
    simp [lastIndexOf2Aux]
    intro h1 h2
    exact this ⟨h1, h2⟩
  | succ k ih =>
    have hk : ¬(s.charAt (k + 1) = c₁ ∧ s.charAt (k + 2) = c₂) := by
      have := h (k + 1) (by omega)
      simpa using this
    simp [lastIndexOf2Aux, hk]
    exact ih fun i hi => h i (by omega)

lemma lastIndexOf2Aux_some_of {s : JsString} {c₁ c₂ : Char} {k j : Nat}
    (hj : s.charAt j = c₁ ∧ s.charAt (j + 1) = c₂) (hjk : j ≤ k)
    (hmax : ∀ i, j < i → i ≤ k → ¬(s.charAt i = c₁ ∧ s.charAt (i + 1) = c₂)) :
    lastIndexOf2Aux s c₁ c₂ k = some j := by
  induction k with
  | zero =>
    have : j = 0 := by omega
    subst this
    simp [lastIndexOf2Aux, hj.1, hj.2]
  | succ k ih =>
    rcases Nat.lt_or_ge j (k + 1) with hjk' | hjk'
    · have hne := hmax (k + 1) (by omega) (by omega)
      have hne' : ¬(s.charAt (k + 1) = c₁ ∧ s.charAt (k + 2) = c₂) := hne
      simp [lastIndexOf2Aux, hne']
      exact ih (by omega) fun i h1 h2 => hmax i h1 (by omega)
    · have : j = k + 1 := by omega
      subst this
      simp [lastIndexOf2Aux, hj.1, hj.2]

lemma lastIndexOf_some {s : JsString} {c : Char} {f j : Nat}
    (h : lastIndexOf s c f = some j) :
    j ≤ f ∧ j < s.len ∧ s.charAt j = c := by
  unfold lastIndexOf at h
  split at h
  · exact absurd h (by simp)
  · rename_i hlen
    have h1 := lastIndexOfAux_le h
    have h2 := lastIndexOfAux_charAt h
    have : j ≤ min f (s.len - 1) := h1
    exact ⟨by omega, by omega, h2⟩

lemma lastIndexOf_maximal {s : JsString} {c : Char} {f j : Nat}
    (h : lastIndexOf s c f = some j) :
    ∀ i, j < i → i ≤ f → i < s.len → s.charAt i ≠ c := by
  unfold lastIndexOf at h
  split at h
  · exact absurd h (by simp)
  · rename_i hlen
    intro i h1 h2 h3
    exact lastIndexOfAux_maximal h i h1 (by omega)

lemma lastIndexOf_eq_some {s : JsString} {c : Char} {f j : Nat}
    (hj : s.charAt j = c) (hjf : j ≤ f) (hjl : j < s.len)
    (hmax : ∀ i, j < i → i ≤ f → i < s.len → s.charAt i ≠ c) :
    lastIndexOf s c f = some j := by
  unfold lastIndexOf
  have hlen : ¬s.len = 0 := by omega
  simp only [hlen, if_false]
  exact lastIndexOfAux_some_of hj (by omega) fun i h1 h2 => hmax i h1 (by omega) (by omega)

lemma lastIndexOf_eq_none {s : JsString} {c : Char} {f : Nat}
    (h : ∀ i, i < s.len → s.charAt i ≠ c) : lastIndexOf s c f = none := by
  unfold lastIndexOf
  split
  · rfl
  · rename_i hlen
    exact lastIndexOfAux_none fun i hi => h i (by omega)

lemma lastIndexOf2_some {s : JsString} {c₁ c₂ : Char} {f j : Nat}
    (h : lastIndexOf2 s c₁ c₂ f = some j) :
    j ≤ f ∧ j + 1 < s.len ∧ s.charAt j = c₁ ∧ s.charAt (j + 1) = c₂ := by
  unfold lastIndexOf2 at h
  split at h
  · exact absurd h (by simp)
  · rename_i hlen
    have h1 := lastIndexOf2Aux_le h
    have h2 := lastIndexOf2Aux_charAt h
    have : j ≤ min f (s.len - 2) := h1
    exact ⟨by omega, by omega, h2⟩

lemma lastIndexOf2_eq_none {s : JsString} {c₁ c₂ : Char} {f : Nat}
    (h : ∀ i, i < s.len → s.charAt i ≠ c₁) : lastIndexOf2 s c₁ c₂ f = none := by
  unfold lastIndexOf2
  split
  · rfl
  · rename_i hlen
    exact lastIndexOf2Aux_none fun i hi hpair => h i (by omega) hpair.1

/-! ### substring lemmas -/

lemma substring_eq {s : JsString} {a b : Nat} (hab : a ≤ b) (hbl : b ≤ s.len) :
    s.substring a b = (List.range (b - a)).map (fun i => s.charAt (a + i)) := by
  unfold JsString.substring
  have h1 : min a s.len = a := Nat.min_eq_left (le_trans hab hbl)
  have h2 : min b s.len = b := Nat.min_eq_left hbl
  simp only [h1, h2, Nat.min_eq_left hab, Nat.max_eq_right hab]

lemma substring_length {s : JsString} {a b : Nat} (hab : a ≤ b) (hbl : b ≤ s.len) :
    (s.substring a b).length = b - a := by
  rw [substring_eq hab hbl]
  simp

lemma substring_append {s : JsString} {a b c : Nat}
    (hab : a ≤ b) (hbc : b ≤ c) (hcl : c ≤ s.len) :
    s.substring a b ++ s.substring b c = s.substring a c := by
  rw [substring_eq hab (le_trans hbc hcl), substring_eq hbc hcl,
    substring_eq (le_trans hab hbc) hcl]
  rw [show c - a = (b - a) + (c - b) by omega, List.range_add, List.map_append,
    List.map_map]
  congr 1
  have : (fun i => s.charAt (a + i)) ∘ (fun i => (b - a) + i)
      = fun i => s.charAt (b + i) := by
    funext i
    simp only [Function.comp]
    congr 1
    omega
  rw [this]

lemma substring_self {s : JsString} {a : Nat} (ha : a ≤ s.len) :
    s.substring a a = [] := by
  rw [substring_eq (le_refl a) ha]
  simp

lemma substring_zero_len (s : JsString) : s.substring 0 s.len = s.toList := by
  rw [substring_eq (Nat.zero_le _) (le_refl _)]
  unfold JsString.toList
  simp

/-! ### chunkEnd bounds -/

lemma jsIdx_pos_cases {o : Option Nat} {s m : Nat}
    (h : 10 * jsIdx o > 10 * (s : Int) + 7 * (m : Int)) :
    ∃ j, o = some j ∧ 10 * j > 10 * s + 7 * m := by
  cases o with
  | none => simp [jsIdx] at h; omega
  | some j =>
    refine ⟨j, rfl, ?_⟩
    simp [jsIdx] at h
    exact_mod_cast h

lemma chunkEnd_ge {text : JsString} {maxChars start : Nat} (hm : 1 ≤ maxChars) :
    start + 1 ≤ chunkEnd text maxChars start := by
  unfold chunkEnd
  dsimp only
  split
  · rename_i h
    obtain ⟨j, hj, hgt⟩ := jsIdx_pos_cases h
    rw [hj]
    simp [jsIdx]
    omega
  · split
    · rename_i h
      set L := max (max (jsIdx (lastIndexOf text '。' (start + maxChars)))
          (jsIdx (lastIndexOf2 text '.' ' ' (start + maxChars))))
        (max (jsIdx (lastIndexOf text '！' (start + maxChars)))
          (jsIdx (lastIndexOf text '？' (start + maxChars)))) with hL
      have hL0 : 10 * L > 10 * (start : Int) + 7 * (maxChars : Int) := h
      have : L + 1 ≥ (start : Int) + 2 := by omega
      omega
    · omega

lemma jsIdx_le_from {s : JsString} {c : Char} {f : Nat} :
    jsIdx (lastIndexOf s c f) ≤ (f : Int) := by
  cases h : lastIndexOf s c f with
  | none => simp only [jsIdx]; omega
  | some j =>
    have := (lastIndexOf_some h).1
    simp only [jsIdx]
    exact_mod_cast this

lemma jsIdx2_le_from {s : JsString} {c₁ c₂ : Char} {f : Nat} :
    jsIdx (lastIndexOf2 s c₁ c₂ f) ≤ (f : Int) := by
  cases h : lastIndexOf2 s c₁ c₂ f with
  | none => simp only [jsIdx]; omega
  | some j =>
    have := (lastIndexOf2_some h).1
    simp only [jsIdx]
    exact_mod_cast this

lemma jsIdx_lt_len {s : JsString} {c : Char} {f : Nat} :
    jsIdx (lastIndexOf s c f) ≤ (s.len : Int) - 1 := by
  cases h : lastIndexOf s c f with
  | none => simp only [jsIdx]; omega
  | some j =>
    have := (lastIndexOf_some h).2.1
    simp only [jsIdx]
    omega

lemma jsIdx2_lt_len {s : JsString} {c₁ c₂ : Char} {f : Nat} :
    jsIdx (lastIndexOf2 s c₁ c₂ f) ≤ (s.len : Int) - 1 := by
  cases h : lastIndexOf2 s c₁ c₂ f with
  | none => simp only [jsIdx]; omega
  | some j =>
    have := (lastIndexOf2_some h).2.1
    simp only [jsIdx]
    omega

lemma chunkEnd_le {text : JsString} {maxChars start : Nat} :
    chunkEnd text maxChars start ≤ start + maxChars + 1 := by
  unfold chunkEnd
  dsimp only
  split
  · have h1 := @jsIdx_le_from text '\n' (start + maxChars)
    omega
  · split
    · have h1 := @jsIdx_le_from text '。' (start + maxChars)
      have h2 := @jsIdx2_le_from text '.' ' ' (start + maxChars)
      have h3 := @jsIdx_le_from text '！' (start + maxChars)
      have h4 := @jsIdx_le_from text '？' (start + maxChars)
      have hmax : max (max (jsIdx (lastIndexOf text '。' (start + maxChars)))
          (jsIdx (lastIndexOf2 text '.' ' ' (start + maxChars))))
          (max (jsIdx (lastIndexOf text '！' (start + maxChars)))
            (jsIdx (lastIndexOf text '？' (start + maxChars))))
          ≤ ((start + maxChars : Nat) : Int) := by
        simp only [max_le_iff]
        exact ⟨⟨h1, h2⟩, h3, h4⟩
      omega
    · omega

lemma chunkEnd_le_len {text : JsString} {maxChars start : Nat}
    (h : start + maxChars < text.len) :
    chunkEnd text maxChars start ≤ text.len := by
  unfold chunkEnd
  dsimp only
  split
  · have h1 := @jsIdx_lt_len text '\n' (start + maxChars)
    omega
  · split
    · have h1 := @jsIdx_lt_len text '。' (start + maxChars)
      have h2 := @jsIdx2_lt_len text '.' ' ' (start + maxChars)
      have h3 := @jsIdx_lt_len text '！' (start + maxChars)
      have h4 := @jsIdx_lt_len text '？' (start + maxChars)
      have hmax : max (max (jsIdx (lastIndexOf text '。' (start + maxChars)))
          (jsIdx (lastIndexOf2 text '.' ' ' (start + maxChars))))
          (max (jsIdx (lastIndexOf text '！' (start + maxChars)))
            (jsIdx (lastIndexOf text '？' (start + maxChars))))
          ≤ (text.len : Int) - 1 := by
        simp only [max_le_iff]
        exact ⟨⟨h1, h2⟩, h3, h4⟩
      omega
    · omega

/-! ### splitLoop lemmas -/

/-- No paragraph or sentence break characters occur in the text (the first
character of the two-character terminator ". " is enough to rule it out). -/
def NoBreakChars (s : JsString) : Prop :=
  ∀ i, i < s.len →
    s.charAt i ≠ '\n' ∧ s.charAt i ≠ '。' ∧ s.charAt i ≠ '！' ∧
      s.charAt i ≠ '？' ∧ s.charAt i ≠ '.'

lemma chunkEnd_of_noBreak {text : JsString} {maxChars start : Nat}
    (h : NoBreakChars text) : chunkEnd text maxChars start = start + maxChars := by
  unfold chunkEnd
  dsimp only
  rw [lastIndexOf_eq_none fun i hi => (h i hi).1,
    lastIndexOf_eq_none fun i hi => (h i hi).2.1,
    lastIndexOf2_eq_none fun i hi => (h i hi).2.2.2.2,
    lastIndexOf_eq_none fun i hi => (h i hi).2.2.1,
    lastIndexOf_eq_none fun i hi => (h i hi).2.2.2.1]
  simp only [jsIdx]
  rw [if_neg (by omega), if_neg (by omega)]

lemma splitLoop_length_noBreak {s : JsString} {m : Nat}
    (h : NoBreakChars s) (hm : 1 ≤ m) :
    ∀ fuel start, start < s.len → s.len ≤ start + fuel →
      (splitLoop s m start fuel).length = (s.len - start + (m - 1)) / m := by
  intro fuel
  induction fuel with
  | zero => intro start h1 h2; omega
  | succ fuel ih =>
    intro start h1 h2
    rw [splitLoop]
    rw [if_pos h1]
    by_cases he : start + m ≥ s.len
    · rw [if_pos he]
      have hlo : 1 * m ≤ s.len - start + (m - 1) := by omega
      have hhi : s.len - start + (m - 1) < (1 + 1) * m := by omega
      simp only [List.length_singleton]
      exact (Nat.div_eq_of_lt_le hlo hhi).symm
    · rw [if_neg he]
      dsimp only
      rw [chunkEnd_of_noBreak h]
      have := ih (start + m) (by omega) (by omega)
      simp only [List.length_cons, this]
      have hx : s.len - start + (m - 1) = (s.len - (start + m) + (m - 1)) + m := by
        omega
      rw [hx, Nat.add_div_right _ (by omega)]

lemma splitLoop_join {s : JsString} {m : Nat} (hm : 1 ≤ m) :
    ∀ fuel start, start ≤ s.len → s.len ≤ start + fuel →
      (splitLoop s m start fuel).flatten = s.substring start s.len := by
  intro fuel
  induction fuel with
  | zero =>
    intro start h1 h2
    have : start = s.len := by omega
    subst this
    rw [splitLoop]
    simp [substring_self (le_refl _)]
  | succ fuel ih =>
    intro start h1 h2
    rw [splitLoop]
    by_cases h0 : start < s.len
    · rw [if_pos h0]
      by_cases he : start + m ≥ s.len
      · rw [if_pos he]
        simp
      · rw [if_neg he]
        dsimp only
        have hge := @chunkEnd_ge s m start hm
        have hle := @chunkEnd_le_len s m start (by omega)
        rw [List.flatten_cons, ih (chunkEnd s m start) hle (by omega)]
        exact substring_append (by omega) hle (le_refl _)
    · rw [if_neg h0]
      have : start = s.len := by omega
      subst this
      simp [substring_self (le_refl _)]

lemma splitLoop_chunk_length {s : JsString} {m : Nat} (hm : 1 ≤ m) :
    ∀ fuel start, start ≤ s.len →
      ∀ c ∈ splitLoop s m start fuel, c.length ≤ m + 1 := by
  intro fuel
  induction fuel with
  | zero => intro start h1 c hc; simp [splitLoop] at hc
  | succ fuel ih =>
    intro start h1 c hc
    rw [splitLoop] at hc
    by_cases h0 : start < s.len
    · rw [if_pos h0] at hc
      by_cases he : start + m ≥ s.len
      · rw [if_pos he] at hc
        simp at hc
        subst hc
        rw [substring_length (by omega) (le_refl _)]
        omega
      · rw [if_neg he] at hc
        dsimp only at hc
        have hge := @chunkEnd_ge s m start hm
        have hle := @chunkEnd_le s m start
        have hlen := @chunkEnd_le_len s m start (by omega)
        rcases List.mem_cons.mp hc with hc | hc
        · subst hc
          rw [substring_length (by omega) hlen]
          omega
        · exact ih (chunkEnd s m start) hlen c hc
    · rw [if_neg h0] at hc
      simp at hc

/-! ### Claim C1: call counts of analyzeContent -/

/-- A 50,000-character transcript with a newline every 5,602 characters:
each boundary search finds a qualifying newline and shortens the chunk,
so the text splits into 9 chunks, not ceil(50000/8000) = 7. -/
def fiftyKNewlines : JsString := ⟨50000, fun n => if n % 5602 = 5601 then '\n' else 'a'⟩

/-- A 50,000-character transcript with no break characters at all. -/
def fiftyKPlain : JsString := ⟨50000, fun _ => 'a'⟩

/-- A 500-character transcript (spec Scenario 1). -/
def fiveHundredPlain : JsString := ⟨500, fun _ => 'a'⟩

set_option maxRecDepth 1000000 in
/-- Claim C1 is false as stated: this transcript of exactly 50,000
characters makes the chunked path issue 9 chunk-summary calls, not
ceil(50000/8000) = 7 — the newline boundary preference shortens every
chunk to 5,602 characters. -/
theorem analyzeContent_fifty_k_nine_chunks :
    fiftyKNewlines.len = 50000 ∧
    (analysisCallTrace fiftyKNewlines).count ModelCall.chunkSummary = 9 ∧
    (analysisCallTrace fiftyKNewlines).count ModelCall.chunkSummary ≠ 7 := by
  have h : (analysisCallTrace fiftyKNewlines).count ModelCall.chunkSummary = 9 := by
    decide
  exact ⟨rfl, h, by rw [h]; decide⟩

/-- Claim C1 (amended): a transcript of at most the 10,000-character
single-pass threshold issues the single-pass request exactly once with no
chunk-summary calls; a transcript of exactly 50,000 characters containing
no newline and no sentence-terminal punctuation issues exactly
ceil(50000/8000) = 7 chunk-summary calls followed by exactly one merge
call (in general the number of chunk-summary calls is the number of
chunks produced by splitIntoChunks, which boundary adjustment can raise
above the ceiling). -/
theorem analyzeContent_call_counts (t : JsString) :
    (t.len ≤ 10000 → analysisCallTrace t = [ModelCall.singlePass]) ∧
    (t.len = 50000 → NoBreakChars t →
      analysisCallTrace t =
        List.replicate 7 ModelCall.chunkSummary ++ [ModelCall.mergeCall]) := by
  constructor
  · intro h
    unfold analysisCallTrace SINGLE_ANALYSIS_MAX_CHARS
    rw [if_pos h]
  · intro hlen hnb
    unfold analysisCallTrace SINGLE_ANALYSIS_MAX_CHARS CHUNK_MAX_CHARS
    rw [if_neg (by omega)]
    unfold splitIntoChunks
    rw [if_neg (by omega)]
    congr 1
    have hcount := @splitLoop_length_noBreak t 8000 hnb (by norm_num) t.len 0 (by omega) (by omega)
    rw [hlen] at hcount
    norm_num at hcount
    rw [hlen]
    calc (splitLoop t 8000 0 50000).map (fun _ => ModelCall.chunkSummary)
        = List.replicate
            ((splitLoop t 8000 0 50000).map (fun _ => ModelCall.chunkSummary)).length
            ModelCall.chunkSummary := by
          apply List.eq_replicate_of_mem
          intro b hb
          rcases List.mem_map.mp hb with ⟨c, _, hc⟩
          exact hc.symm
      _ = List.replicate 7 ModelCall.chunkSummary := by rw [List.length_map, hcount]

/-- Witness for the amended C1 at concrete inputs: a plain 500-character
transcript takes the single-pass path once, and a plain 50,000-character
transcript issues 7 chunk-summary calls then one merge call. -/
theorem analyzeContent_call_counts_witness :
    fiveHundredPlain.len ≤ 10000 ∧
    analysisCallTrace fiveHundredPlain = [ModelCall.singlePass] ∧
    fiftyKPlain.len = 50000 ∧ NoBreakChars fiftyKPlain ∧
    analysisCallTrace fiftyKPlain =
      List.replicate 7 ModelCall.chunkSummary ++ [ModelCall.mergeCall] := by
  have hnb : NoBreakChars fiftyKPlain := by
    intro i hi
    exact ⟨(by decide : ('a' : Char) ≠ '\n'), (by decide : ('a' : Char) ≠ '。'),
      (by decide : ('a' : Char) ≠ '！'), (by decide : ('a' : Char) ≠ '？'),
      (by decide : ('a' : Char) ≠ '.')⟩
  exact ⟨by decide, (analyzeContent_call_counts fiveHundredPlain).1 (by decide),
    rfl, hnb, (analyzeContent_call_counts fiftyKPlain).2 rfl hnb⟩

/-! ### Claims C2 and C3: chunk size bound and round trip -/

/-- Claim C2 is false as stated: with budget 10, a text of 13 characters
whose newline sits exactly at index start + maxChars produces a first
chunk of 11 = maxChars + 1 characters (lastIndexOf can match at the
budget offset itself, and the boundary is placed one past the newline). -/
theorem splitIntoChunks_exceeds_budget :
    (splitIntoChunks demoText 10).map List.length = [11, 2] ∧
    ¬∀ c ∈ splitIntoChunks demoText 10, c.length ≤ 10 := by
  decide

/-- Claim C2 (amended): for every text and every chunk budget
maxChars ≥ 1, every chunk returned by splitIntoChunks has length at most
maxChars + 1 (the boundary may land one character past the budget when a
newline or sentence terminator sits exactly at the budget offset). -/
theorem splitIntoChunks_length_le (t : JsString) (m : Nat) (hm : 1 ≤ m) :
    ∀ c ∈ splitIntoChunks t m, c.length ≤ m + 1 := by
  unfold splitIntoChunks
  split
  · rename_i hle
    intro c hc
    simp at hc
    subst hc
    unfold JsString.toList
    simp
    omega
  · rename_i hgt
    exact splitLoop_chunk_length hm t.len 0 (by omega)

/-- Witness for the amended C2: with budget 10 every chunk of the
13-character counterexample text has length at most 11. -/
theorem splitIntoChunks_length_le_witness :
    1 ≤ 10 ∧ ∀ c ∈ splitIntoChunks demoText 10, c.length ≤ 11 :=
  ⟨by decide, splitIntoChunks_length_le demoText 10 (by decide)⟩

/-- Claim C3: for every text and every chunk budget maxChars ≥ 1,
concatenating the chunks of splitIntoChunks in order reconstructs the
original text exactly — no characters are dropped or duplicated at chunk
boundaries — covering both the single-chunk case (text at or below the
budget) and the split case. -/
theorem splitIntoChunks_flatten (t : JsString) (m : Nat) (hm : 1 ≤ m) :
    (splitIntoChunks t m).flatten = t.toList := by
  unfold splitIntoChunks
  split
  · simp
  · rename_i hgt
    rw [splitLoop_join hm t.len 0 (by omega) (by omega), substring_zero_len]

/-- Witness for C3: round trip at the 13-character text with budget 10
(a case that splits into two chunks with an adjusted boundary). -/
theorem splitIntoChunks_flatten_witness :
    1 ≤ 10 ∧ (splitIntoChunks demoText 10).flatten = demoText.toList :=
  ⟨by decide, splitIntoChunks_flatten demoText 10 (by decide)⟩

/-! ### Claim C4: boundary preference -/

/-- p is a sentence-terminal cut position as searched by the splitter:
the CJK terminators 。！？, or a Latin period immediately followed by a
space (both characters inside the string, as required for a ". " match). -/
def TermAt (s : JsString) (p : Nat) : Prop :=
  s.charAt p = '。' ∨ (s.charAt p = '.' ∧ p + 1 < s.len ∧ s.charAt (p + 1) = ' ') ∨
    s.charAt p = '！' ∨ s.charAt p = '？'

instance (s : JsString) (p : Nat) : Decidable (TermAt s p) := by
  unfold TermAt
  infer_instance

lemma lastIndexOf2_eq_some {s : JsString} {c₁ c₂ : Char} {f j : Nat}
    (hj1 : s.charAt j = c₁) (hj2 : s.charAt (j + 1) = c₂)
    (hjf : j ≤ f) (hjl : j + 1 < s.len)
    (hmax : ∀ i, j < i → i ≤ f → i + 1 < s.len →
      ¬(s.charAt i = c₁ ∧ s.charAt (i + 1) = c₂)) :
    lastIndexOf2 s c₁ c₂ f = some j := by
  unfold lastIndexOf2
  have hlen : ¬s.len < 2 := by omega
  simp only [hlen, if_false]
  exact lastIndexOf2Aux_some_of ⟨hj1, hj2⟩ (by omega)
    fun i h1 h2 => hmax i h1 (by omega) (by omega)

lemma jsIdx_term_le {t : JsString} {c : Char} {f p : Nat}
    (hc : c = '。' ∨ c = '！' ∨ c = '？')
    (hmax : ∀ q, p < q → q ≤ f → q < t.len → ¬TermAt t q) :
    jsIdx (lastIndexOf t c f) ≤ (p : Int) := by
  cases h : lastIndexOf t c f with
  | none => simp only [jsIdx]; omega
  | some j =>
    obtain ⟨h1, h2, h3⟩ := lastIndexOf_some h
    have hterm : TermAt t j := by
      rcases hc with hc | hc | hc <;> subst hc
      · exact Or.inl h3
      · exact Or.inr (Or.inr (Or.inl h3))
      · exact Or.inr (Or.inr (Or.inr h3))
    simp only [jsIdx]
    by_contra hgt
    exact hmax j (by omega) h1 h2 hterm

lemma jsIdx2_term_le {t : JsString} {f p : Nat}
    (hmax : ∀ q, p < q → q ≤ f → q < t.len → ¬TermAt t q) :
    jsIdx (lastIndexOf2 t '.' ' ' f) ≤ (p : Int) := by
  cases h : lastIndexOf2 t '.' ' ' f with
  | none => simp only [jsIdx]; omega
  | some j =>
    obtain ⟨h1, h2, h3, h4⟩ := lastIndexOf2_some h
    have hterm : TermAt t j := Or.inr (Or.inl ⟨h3, h2, h4⟩)
    simp only [jsIdx]
    by_contra hgt
    exact hmax j (by omega) h1 (by omega) hterm

lemma jsIdx_term_bound {t : JsString} {c : Char} {f B : Nat}
    (hc : c = '。' ∨ c = '！' ∨ c = '？')
    (h : ∀ q, q ≤ f → q < t.len → TermAt t q → 10 * q ≤ B) :
    10 * jsIdx (lastIndexOf t c f) ≤ (B : Int) := by
  cases hr : lastIndexOf t c f with
  | none => simp only [jsIdx]; omega
  | some j =>
    obtain ⟨h1, h2, h3⟩ := lastIndexOf_some hr
    have hterm : TermAt t j := by
      rcases hc with hc | hc | hc <;> subst hc
      · exact Or.inl h3
      · exact Or.inr (Or.inr (Or.inl h3))
      · exact Or.inr (Or.inr (Or.inr h3))
    have := h j h1 h2 hterm
    simp only [jsIdx]
    exact_mod_cast this

lemma jsIdx2_term_bound {t : JsString} {f B : Nat}
    (h : ∀ q, q ≤ f → q < t.len → TermAt t q → 10 * q ≤ B) :
    10 * jsIdx (lastIndexOf2 t '.' ' ' f) ≤ (B : Int) := by
  cases hr : lastIndexOf2 t '.' ' ' f with
  | none => simp only [jsIdx]; omega
  | some j =>
    obtain ⟨h1, h2, h3, h4⟩ := lastIndexOf2_some hr
    have hterm : TermAt t j := Or.inr (Or.inl ⟨h3, h2, h4⟩)
    have := h j h1 (by omega) hterm
    simp only [jsIdx]
    exact_mod_cast this

lemma newline_cond_false {t : JsString} {m start : Nat}
    (h : ∀ q, q ≤ start + m → q < t.len → t.charAt q = '\n' →
      10 * q ≤ 10 * start + 7 * m) :
    ¬(10 * jsIdx (lastIndexOf t '\n' (start + m)) >
        10 * (start : Int) + 7 * (m : Int)) := by
  cases hr : lastIndexOf t '\n' (start + m) with
  | none => simp only [jsIdx]; omega
  | some j =>
    obtain ⟨h1, h2, h3⟩ := lastIndexOf_some hr
    have := h j h1 h2 h3
    simp only [jsIdx]
    omega

/-- Claim C4: whenever the budget window of the current chunk contains a
newline strictly past 70% of the budget (at position p ≤ start + maxChars
with 10p > 10·start + 7·maxChars) and that newline is the last such
character in the window, the boundary is placed exactly one past that
newline (the chunk ends with it), not at the raw budget offset; when no
newline qualifies, the boundary falls one past the last qualifying
sentence-terminal punctuation (。, ". ", ！, ？); and when neither
qualifies, the chunk is cut mid-sentence at the raw offset
start + maxChars. -/
theorem chunkEnd_boundary_preference (t : JsString) (m start : Nat) :
    (∀ p, p < t.len → p ≤ start + m → t.charAt p = '\n' →
      10 * p > 10 * start + 7 * m →
      (∀ q, p < q → q ≤ start + m → q < t.len → t.charAt q ≠ '\n') →
      chunkEnd t m start = p + 1) ∧
    (∀ p, (∀ q, q ≤ start + m → q < t.len → t.charAt q = '\n' →
        10 * q ≤ 10 * start + 7 * m) →
      p < t.len → p ≤ start + m → TermAt t p →
      10 * p > 10 * start + 7 * m →
      (∀ q, p < q → q ≤ start + m → q < t.len → ¬TermAt t q) →
      chunkEnd t m start = p + 1) ∧
    ((∀ q, q ≤ start + m → q < t.len → t.charAt q = '\n' →
        10 * q ≤ 10 * start + 7 * m) →
      (∀ q, q ≤ start + m → q < t.len → TermAt t q →
        10 * q ≤ 10 * start + 7 * m) →
      chunkEnd t m start = start + m) := by
  refine ⟨?_, ?_, ?_⟩
  · intro p hp hpe hpc hpgt hmax
    unfold chunkEnd
    dsimp only
    rw [lastIndexOf_eq_some hpc hpe hp hmax]
    simp only [jsIdx]
    rw [if_pos (by exact_mod_cast hpgt)]
    omega
  · intro p hnl hp hpe hterm hpgt hmax
    unfold chunkEnd
    dsimp only
    rw [if_neg (newline_cond_false hnl)]
    have hub : max (max (jsIdx (lastIndexOf t '。' (start + m)))
        (jsIdx (lastIndexOf2 t '.' ' ' (start + m))))
        (max (jsIdx (lastIndexOf t '！' (start + m)))
          (jsIdx (lastIndexOf t '？' (start + m)))) = (p : Int) := by
      apply le_antisymm
      · simp only [max_le_iff]
        exact ⟨⟨jsIdx_term_le (Or.inl rfl) hmax, jsIdx2_term_le hmax⟩,
          jsIdx_term_le (Or.inr (Or.inl rfl)) hmax,
          jsIdx_term_le (Or.inr (Or.inr rfl)) hmax⟩
      · rcases hterm with hc | ⟨hc, hc1, hc2⟩ | hc | hc
        · have : lastIndexOf t '。' (start + m) = some p := by
            apply lastIndexOf_eq_some hc hpe hp
            intro i h1 h2 h3 hci
            exact hmax i h1 h2 h3 (Or.inl hci)
          calc (p : Int) = jsIdx (lastIndexOf t '。' (start + m)) := by
                rw [this]; simp [jsIdx]
            _ ≤ _ := le_max_of_le_left (le_max_left _ _)
        · have : lastIndexOf2 t '.' ' ' (start + m) = some p := by
            apply lastIndexOf2_eq_some hc hc2 hpe hc1
            intro i h1 h2 h3 hpair
            exact hmax i h1 h2 (by omega) (Or.inr (Or.inl ⟨hpair.1, h3, hpair.2⟩))
          calc (p : Int) = jsIdx (lastIndexOf2 t '.' ' ' (start + m)) := by
                rw [this]; simp [jsIdx]
            _ ≤ _ := le_max_of_le_left (le_max_right _ _)
        · have : lastIndexOf t '！' (start + m) = some p := by
            apply lastIndexOf_eq_some hc hpe hp
            intro i h1 h2 h3 hci
            exact hmax i h1 h2 h3 (Or.inr (Or.inr (Or.inl hci)))
          calc (p : Int) = jsIdx (lastIndexOf t '！' (start + m)) := by
                rw [this]; simp [jsIdx]
            _ ≤ _ := le_max_of_le_right (le_max_left _ _)
        · have : lastIndexOf t '？' (start + m) = some p := by
            apply lastIndexOf_eq_some hc hpe hp
            intro i h1 h2 h3 hci
            exact hmax i h1 h2 h3 (Or.inr (Or.inr (Or.inr hci)))
          calc (p : Int) = jsIdx (lastIndexOf t '？' (start + m)) := by
                rw [this]; simp [jsIdx]
            _ ≤ _ := le_max_of_le_right (le_max_right _ _)
    rw [hub]
    rw [if_pos (by exact_mod_cast hpgt)]
    omega
  · intro hnl hterm
    unfold chunkEnd
    dsimp only
    rw [if_neg (newline_cond_false hnl)]
    have hb1 := @jsIdx_term_bound t '。' (start + m) (10 * start + 7 * m) (Or.inl rfl) hterm
    have hb2 := @jsIdx2_term_bound t (start + m) (10 * start + 7 * m) hterm
    have hb3 := @jsIdx_term_bound t '！' (start + m) (10 * start + 7 * m) (Or.inr (Or.inl rfl)) hterm
    have hb4 := @jsIdx_term_bound t '？' (start + m) (10 * start + 7 * m) (Or.inr (Or.inr rfl)) hterm
    rw [if_neg (by
      simp only [gt_iff_lt, not_lt]
      have h10 : (0 : Int) ≤ 10 := by norm_num
      rw [mul_max_of_nonneg _ _ h10, mul_max_of_nonneg _ _ h10,
        mul_max_of_nonneg _ _ h10, max_le_iff, max_le_iff, max_le_iff]
      refine ⟨⟨?_, ?_⟩, ?_, ?_⟩ <;> [exact le_trans hb1 (by push_cast; omega);
        exact le_trans hb2 (by push_cast; omega);
        exact le_trans hb3 (by push_cast; omega);
        exact le_trans hb4 (by push_cast; omega)])]

/-- A 13-character text whose only break character is a 。 at index 9. -/
def termNineText : JsString := ⟨13, fun n => if n = 9 then '。' else 'a'⟩

/-- A 13-character text with no break characters. -/
def plainThirteen : JsString := ⟨13, fun _ => 'a'⟩

/-- Witness for C4 at concrete inputs with budget 10 from start 0: the
newline at index 10 of the first text puts the boundary at 11; the 。 at
index 9 of the second puts it at 10; the third has no break character so
the cut is mid-sentence at the raw offset 10. -/
theorem chunkEnd_boundary_preference_witness :
    demoText.charAt 10 = '\n' ∧ chunkEnd demoText 10 0 = 11 ∧
    TermAt termNineText 9 ∧ chunkEnd termNineText 10 0 = 10 ∧
    chunkEnd plainThirteen 10 0 = 10 := by
  refine ⟨by decide, ?_, by decide, ?_, ?_⟩
  · exact (chunkEnd_boundary_preference demoText 10 0).1 10 (by decide) (by decide)
      (by decide) (by decide) (by intro q h1 h2 h3; omega)
  · exact (chunkEnd_boundary_preference termNineText 10 0).2.1 9
      (by intro q h1 h2 hq; exfalso; interval_cases q <;> revert hq <;> decide)
      (by decide) (by decide) (by decide) (by decide)
      (by intro q h1 h2 h3; interval_cases q <;> decide)
  · exact (chunkEnd_boundary_preference plainThirteen 10 0).2.2
      (by intro q h1 h2 hq; exfalso; interval_cases q <;> revert hq <;> decide)
      (by intro q h1 h2 hq; exfalso; interval_cases q <;> revert hq <;> decide)

/-! ### Claim C5: the withRetry backoff primitive (src/utils/retry.ts) -/

/-- RetryOptions (src/utils/retry.ts lines 3-8).  In the source
maxDelayMs defaults to 60000 when absent; here it is always explicit. -/
structure RetryOptions where
  maxAttempts : Nat
  baseDelayMs : ℚ
  maxDelayMs : ℚ

/-- The sleep computed after failed attempt `attempt` (src/utils/retry.ts
lines 26-27): min(baseDelayMs * 2^(attempt-1) + jitter, maxDelayMs), where
jitter = Math.random() * baseDelayMs * 0.5 is supplied as a parameter. -/
def retryDelay (opts : RetryOptions) (attempt : Nat) (jitter : ℚ) : ℚ :=
  min (opts.baseDelayMs * 2 ^ (attempt - 1) + jitter) opts.maxDelayMs

/-- Whether an outcome is a thrown error. -/
def isErrorB {ε α : Type} : Except ε α → Bool
  | .error _ => true
  | .ok _ => false

/-- The withRetry loop (src/utils/retry.ts lines 20-36) over an oracle
giving each attempt's outcome.  Result components: the overall outcome
(none models the unreachable throw after the loop, only possible when
maxAttempts = 0), the attempt numbers actually invoked in order, and the
delays slept in order. -/
def withRetryAux {ε α : Type} (fn : Nat → Except ε α) (opts : RetryOptions)
    (jitter : Nat → ℚ) : Nat → Nat → Option (Except ε α) × List Nat × List ℚ
  | 0, _ => (none, [], [])
  | fuel + 1, attempt =>
    if attempt ≤ opts.maxAttempts then
      match fn attempt with
      | .ok v => (some (.ok v), [attempt], [])
      | .error e =>
        if attempt = opts.maxAttempts then (some (.error e), [attempt], [])
        else
          let d := retryDelay opts attempt (jitter attempt)
          let r := withRetryAux fn opts jitter fuel (attempt + 1)
          (r.1, attempt :: r.2.1, d :: r.2.2)
    else (none, [], [])

/-- withRetry (src/utils/retry.ts lines 14-39): run the loop from
attempt 1; fuel maxAttempts + 1 is always sufficient since attempt
increases by one per iteration. -/
def withRetry {ε α : Type} (fn : Nat → Except ε α) (opts : RetryOptions)
    (jitter : Nat → ℚ) : Option (Except ε α) × List Nat × List ℚ :=
  withRetryAux fn opts jitter (opts.maxAttempts + 1) 1

lemma withRetryAux_shape {ε α : Type} (fn : Nat → Except ε α)
    (opts : RetryOptions) (jitter : Nat → ℚ) :
    ∀ fuel attempt, 1 ≤ attempt → attempt ≤ opts.maxAttempts →
      opts.maxAttempts + 1 ≤ attempt + fuel →
      ∃ k, attempt ≤ k ∧ k ≤ opts.maxAttempts ∧
        (withRetryAux fn opts jitter fuel attempt).2.1
          = List.range' attempt (k + 1 - attempt) ∧
        (withRetryAux fn opts jitter fuel attempt).2.2
          = (List.range' attempt (k - attempt)).map
              (fun a => retryDelay opts a (jitter a)) := by
  intro fuel
  induction fuel with
  | zero => intro attempt h1 h2 h3; omega
  | succ fuel ih =>
    intro attempt h1 h2 h3
    rw [withRetryAux]
    rw [if_pos h2]
    cases hfn : fn attempt with
    | ok v =>
      refine ⟨attempt, le_refl _, h2, ?_, ?_⟩ <;> simp
    | error e =>
      dsimp only
      by_cases hlast : attempt = opts.maxAttempts
      · rw [if_pos hlast]
        refine ⟨attempt, le_refl _, h2, ?_, ?_⟩ <;> simp
      · rw [if_neg hlast]
        obtain ⟨k, hk1, hk2, hk3, hk4⟩ := ih (attempt + 1) (by omega) (by omega) (by omega)
        refine ⟨k, by omega, hk2, ?_, ?_⟩
        · dsimp only
          rw [hk3, show k + 1 - attempt = (k - attempt) + 1 by omega,
            List.range'_succ, show k + 1 - (attempt + 1) = k - attempt by omega]
        · dsimp only
          rw [hk4, show k - attempt = (k - (attempt + 1)) + 1 by omega,
            List.range'_succ, List.map_cons]

lemma withRetryAux_all_fail {ε α : Type} (fn : Nat → Except ε α)
    (opts : RetryOptions) (jitter : Nat → ℚ) :
    ∀ fuel attempt, 1 ≤ attempt → attempt ≤ opts.maxAttempts →
      opts.maxAttempts + 1 ≤ attempt + fuel →
      (∀ a, attempt ≤ a → a ≤ opts.maxAttempts → isErrorB (fn a) = true) →
      (withRetryAux fn opts jitter fuel attempt).1 = some (fn opts.maxAttempts) ∧
      (withRetryAux fn opts jitter fuel attempt).2.1
        = List.range' attempt (opts.maxAttempts + 1 - attempt) := by
  intro fuel
  induction fuel with
  | zero => intro attempt h1 h2 h3; omega
  | succ fuel ih =>
    intro attempt h1 h2 h3 hfail
    rw [withRetryAux]
    rw [if_pos h2]
    cases hfn : fn attempt with
    | ok v =>
      have := hfail attempt (le_refl _) h2
      rw [hfn] at this
      simp [isErrorB] at this
    | error e =>
      dsimp only
      by_cases hlast : attempt = opts.maxAttempts
      · rw [if_pos hlast]
        subst hlast
        refine ⟨by rw [hfn], ?_⟩
        simp
      · rw [if_neg hlast]
        obtain ⟨ihr, iha⟩ := ih (attempt + 1) (by omega) (by omega) (by omega)
          fun a ha1 ha2 => hfail a (by omega) ha2
        refine ⟨ihr, ?_⟩
        dsimp only
        rw [iha, show opts.maxAttempts + 1 - attempt
            = (opts.maxAttempts - attempt) + 1 by omega, List.range'_succ,
          show opts.maxAttempts + 1 - (attempt + 1)
            = opts.maxAttempts - attempt by omega]

lemma withRetryAux_first_ok {ε α : Type} (fn : Nat → Except ε α)
    (opts : RetryOptions) (jitter : Nat → ℚ) {k : Nat} {v : α} :
    ∀ fuel attempt, 1 ≤ attempt → attempt ≤ k → k ≤ opts.maxAttempts →
      opts.maxAttempts + 1 ≤ attempt + fuel →
      fn k = .ok v →
      (∀ a, attempt ≤ a → a < k → isErrorB (fn a) = true) →
      (withRetryAux fn opts jitter fuel attempt).1 = some (.ok v) ∧
      (withRetryAux fn opts jitter fuel attempt).2.1
        = List.range' attempt (k + 1 - attempt) := by
  intro fuel
  induction fuel with
  | zero => intro attempt h1 h2 h3 h4; omega
  | succ fuel ih =>
    intro attempt h1 h2 h3 h4 hok hfail
    rw [withRetryAux]
    rw [if_pos (by omega)]
    by_cases heq : attempt = k
    · subst heq
      rw [hok]
      refine ⟨rfl, ?_⟩
      simp
    · have hfa := hfail attempt (le_refl _) (by omega)
      cases hfn : fn attempt with
      | ok w => rw [hfn] at hfa; simp [isErrorB] at hfa
      | error e =>
        dsimp only
        have hlast : ¬attempt = opts.maxAttempts := by omega
        rw [if_neg hlast]
        obtain ⟨ihr, iha⟩ := ih (attempt + 1) (by omega) (by omega) h3 (by omega) hok
          fun a ha1 ha2 => hfail a (by omega) ha2
        refine ⟨ihr, ?_⟩
        dsimp only
        rw [iha, show k + 1 - attempt = (k - attempt) + 1 by omega,
          List.range'_succ, show k + 1 - (attempt + 1) = k - attempt by omega]

/-- Claim C5: withRetry invokes the operation at most maxAttempts times;
every slept delay is exactly min(base * 2^(attempt-1) + jitter, maxDelayMs)
for its attempt with its jitter (the delays are the per-attempt formula
mapped over all attempts but the last); with jitter 0 and base ≥ 0 the
delay formula is non-decreasing in the attempt number and never exceeds
the cap; when all attempts fail the last attempt's original error is
propagated unchanged after exactly maxAttempts invocations; and when
attempt k succeeds first, the result is returned after exactly the
invocations 1..k. -/
theorem withRetry_spec {ε α : Type} (fn : Nat → Except ε α)
    (opts : RetryOptions) (jitter : Nat → ℚ)
    (hma : 1 ≤ opts.maxAttempts) (hb : 0 ≤ opts.baseDelayMs) :
    (withRetry fn opts jitter).2.1.length ≤ opts.maxAttempts ∧
    (withRetry fn opts jitter).2.2
      = (withRetry fn opts jitter).2.1.dropLast.map
          (fun a => retryDelay opts a (jitter a)) ∧
    (∀ a, retryDelay opts a 0 ≤ retryDelay opts (a + 1) 0) ∧
    (∀ a, retryDelay opts a 0 ≤ opts.maxDelayMs) ∧
    (∀ e, fn opts.maxAttempts = .error e →
      (∀ a, 1 ≤ a → a ≤ opts.maxAttempts → isErrorB (fn a) = true) →
      (withRetry fn opts jitter).1 = some (.error e) ∧
      (withRetry fn opts jitter).2.1 = List.range' 1 opts.maxAttempts) ∧
    (∀ k v, 1 ≤ k → k ≤ opts.maxAttempts → fn k = .ok v →
      (∀ a, 1 ≤ a → a < k → isErrorB (fn a) = true) →
      (withRetry fn opts jitter).1 = some (.ok v) ∧
      (withRetry fn opts jitter).2.1 = List.range' 1 k) := by
  obtain ⟨k, hk1, hk2, hk3, hk4⟩ := withRetryAux_shape fn opts jitter
    (opts.maxAttempts + 1) 1 (le_refl _) hma (by omega)
  refine ⟨?_, ?_, ?_, ?_, ?_, ?_⟩
  · unfold withRetry
    rw [hk3]
    simp
    omega
  · unfold withRetry
    rw [hk3, hk4, show k + 1 - 1 = (k - 1) + 1 by omega, List.range'_concat,
      List.dropLast_concat]
  · intro a
    unfold retryDelay
    apply min_le_min _ (le_refl _)
    have h2 : (2 : ℚ) ^ (a - 1) ≤ 2 ^ (a + 1 - 1) := by
      apply pow_le_pow_right (by norm_num)
      omega
    nlinarith
  · intro a
    exact min_le_right _ _
  · intro e he hfail
    obtain ⟨hr, ha⟩ := withRetryAux_all_fail fn opts jitter
      (opts.maxAttempts + 1) 1 (le_refl _) hma (by omega) hfail
    refine ⟨?_, ?_⟩
    · unfold withRetry
      rw [hr, he]
    · unfold withRetry
      rw [ha, show opts.maxAttempts + 1 - 1 = opts.maxAttempts by omega]
  · intro k' v h1 h2 hok hfail
    obtain ⟨hr, ha⟩ := withRetryAux_first_ok fn opts jitter
      (opts.maxAttempts + 1) 1 (le_refl _) h1 h2 (by omega) hok hfail
    refine ⟨hr, ?_⟩
    unfold withRetry
    rw [ha, show k' + 1 - 1 = k' by omega]

/-- Witness for C5 at a concrete oracle: with maxAttempts 3, base 10000,
cap 60000 and zero jitter, an oracle failing twice then succeeding runs
attempts 1, 2, 3, sleeps 10000 then 20000, and returns the success. -/
theorem withRetry_spec_witness :
    1 ≤ (3 : Nat) ∧ (0 : ℚ) ≤ 10000 ∧
    (withRetry (fun a => if a ≤ 2 then Except.error "boom" else Except.ok 42)
      ⟨3, 10000, 60000⟩ (fun _ => 0)).1 = some (Except.ok 42) ∧
    (withRetry (fun a => if a ≤ 2 then Except.error "boom" else Except.ok 42)
      ⟨3, 10000, 60000⟩ (fun _ => 0)).2.1 = List.range' 1 3 ∧
    (withRetry (fun a => if a ≤ 2 then Except.error "boom" else Except.ok 42)
      ⟨3, 10000, 60000⟩ (fun _ => 0)).2.2 = [10000, 20000] := by
  have hspec := withRetry_spec
    (fun a => if a ≤ 2 then Except.error "boom" else Except.ok (42 : Nat))
    ⟨3, 10000, 60000⟩ (fun _ => 0) (by norm_num) (by norm_num)
  obtain ⟨hr, ha⟩ := hspec.2.2.2.2.2 3 42 (by norm_num) (le_refl _) rfl
    (by intro a h1 h2; interval_cases a <;> rfl)
  refine ⟨by norm_num, by norm_num, hr, ha, ?_⟩
  rw [hspec.2.1, ha]
  norm_num [retryDelay, List.range', List.dropLast]

/-! ### Claim C6: normalizeAnalysisResult (src/audio/processor.ts 433-489)

The input is modelled as `Option Json`: `some j` is a successful
`JSON.parse` of the raw model response, `none` a parse exception.  JS
property access on `null` throws a TypeError, which the surrounding
try/catch converts to the parse-failed placeholder; this is modelled by
`jsGet` returning `Except.error ()` on `Json.null` and the exception
propagating through `normalizeCore` to the catch branch of
`normalizeAnalysisResult`. -/

/-- A parsed JSON value (JSON.parse never produces `undefined`, which is
therefore represented only as `Option.none` for missing properties). -/
inductive Json where
  | null
  | bool (b : Bool)
  | num (q : ℚ)
  | str (s : String)
  | arr (elems : List Json)
  | obj (fields : List (String × Json))

/-- Property lookup on a parsed object: JSON.parse keeps the last
occurrence of a duplicated key. -/
def objLookup (fields : List (String × Json)) (k : String) : Option Json :=
  (fields.reverse.find? (fun f => f.1 == k)).map (fun f => f.2)

/-- JS property access `data[k]`: throws (TypeError) on null, yields the
field (or undefined = none) on objects, undefined on other values. -/
def jsGet : Json → String → Except Unit (Option Json)
  | .null, _ => .error ()
  | .obj fields, k => .ok (objLookup fields k)
  | _, _ => .ok none

/-- JS truthiness of a property-access result (undefined, null, false, 0
and the empty string are falsy). -/
def jsTruthy : Option Json → Bool
  | none => false
  | some .null => false
  | some (.bool b) => b
  | some (.num q) => decide (q ≠ 0)
  | some (.str s) => decide (s ≠ "")
  | some (.arr _) => true
  | some (.obj _) => true

/-- JS `v || d`: the value when truthy, otherwise the default. -/
def jsOr (v : Option Json) (d : Json) : Json :=
  if jsTruthy v then v.getD d else d

/-- `typeof v === 'string'` narrowing. -/
def isStr : Option Json → Option String
  | some (.str s) => some s
  | _ => none

/-- `Array.isArray(v)` narrowing. -/
def isArr : Option Json → Option (List Json)
  | some (.arr xs) => some xs
  | _ => none

-- Output shapes.  At runtime the TS string-typed element fields hold
-- whatever JS value `||` produced, so they are modelled as Json; the
-- summary and fullRecap fields are genuine strings thanks to the typeof
-- guards.
structure KeyPoint where
  title : Json
  detail : Json

structure Keyword where
  word : Json
  context : Json

structure MainArgument where
  title : Json
  summary : Json
  details : Json
  relatedQuotes : List Json

structure KnowledgePoint where
  term : Json
  explanation : Json
  context : Json

structure KnowledgeCategory where
  category : Json
  points : List KnowledgePoint

structure AnalysisOutput where
  summary : String
  keyPoints : List KeyPoint
  keywords : List Keyword
  fullRecap : String
  mainArguments : List MainArgument
  knowledgePoints : List KnowledgeCategory

/-- `typeof data.summary === 'string' ? data.summary : '分析结果不可用'`. -/
def normSummary (data : Json) : Except Unit String :=
  match jsGet data "summary" with
  | .error e => .error e
  | .ok v => .ok ((isStr v).getD "分析结果不可用")

/-- One keyPoints element: a bare string becomes {title, detail: ''};
otherwise title/detail are read with `|| ''` defaults. -/
def normKeyPoint (p : Json) : Except Unit KeyPoint :=
  match p with
  | .str s => .ok ⟨.str s, .str ""⟩
  | _ =>
    match jsGet p "title" with
    | .error e => .error e
    | .ok t =>
      match jsGet p "detail" with
      | .error e => .error e
      | .ok d => .ok ⟨jsOr t (.str ""), jsOr d (.str "")⟩

def normKeyPoints (data : Json) : Except Unit (List KeyPoint) :=
  match jsGet data "keyPoints" with
  | .error e => .error e
  | .ok v =>
    match isArr v with
    | some xs => xs.mapM normKeyPoint
    | none => .ok []

/-- One keywords element: `word: k.word || k.term || ''`,
`context: k.context || k.explanation || ''`. -/
def normKeywordItem (k : Json) : Except Unit Keyword :=
  match jsGet k "word" with
  | .error e => .error e
  | .ok w =>
    match jsGet k "term" with
    | .error e => .error e
    | .ok t =>
      match jsGet k "context" with
      | .error e => .error e
      | .ok c =>
        match jsGet k "explanation" with
        | .error e => .error e
        | .ok x => .ok ⟨jsOr w (jsOr t (.str "")), jsOr c (jsOr x (.str ""))⟩

def normKeywords (data : Json) : Except Unit (List Keyword) :=
  match jsGet data "keywords" with
  | .error e => .error e
  | .ok v =>
    match isArr v with
    | some xs => xs.mapM normKeywordItem
    | none => .ok []

/-- `typeof data.fullRecap === 'string' ? data.fullRecap : ''`. -/
def normFullRecap (data : Json) : Except Unit String :=
  match jsGet data "fullRecap" with
  | .error e => .error e
  | .ok v => .ok ((isStr v).getD "")

def normMainArgumentItem (arg : Json) : Except Unit MainArgument :=
  match jsGet arg "title" with
  | .error e => .error e
  | .ok t =>
    match jsGet arg "summary" with
    | .error e => .error e
    | .ok s =>
      match jsGet arg "details" with
      | .error e => .error e
      | .ok d =>
        match jsGet arg "relatedQuotes" with
        | .error e => .error e
        | .ok rq =>
          .ok ⟨jsOr t (.str ""), jsOr s (.str ""), jsOr d (.str ""), (isArr rq).getD []⟩

def normMainArguments (data : Json) : Except Unit (List MainArgument) :=
  match jsGet data "mainArguments" with
  | .error e => .error e
  | .ok v =>
    match isArr v with
    | some xs => xs.mapM normMainArgumentItem
    | none => .ok []

def normKnowledgePointItem (p : Json) : Except Unit KnowledgePoint :=
  match jsGet p "term" with
  | .error e => .error e
  | .ok t =>
    match jsGet p "explanation" with
    | .error e => .error e
    | .ok x =>
      match jsGet p "context" with
      | .error e => .error e
      | .ok c => .ok ⟨jsOr t (.str ""), jsOr x (.str ""), jsOr c (.str "")⟩

def normKnowledgeCategoryItem (cat : Json) : Except Unit KnowledgeCategory :=
  match jsGet cat "category" with
  | .error e => .error e
  | .ok c =>
    match jsGet cat "points" with
    | .error e => .error e
    | .ok ps =>
      match isArr ps with
      | some xs =>
        match xs.mapM normKnowledgePointItem with
        | .error e => .error e
        | .ok points => .ok ⟨jsOr c (.str "其他"), points⟩
      | none => .ok ⟨jsOr c (.str "其他"), []⟩

def normKnowledge (data : Json) : Except Unit (List KnowledgeCategory) :=
  match jsGet data "knowledgePoints" with
  | .error e => .error e
  | .ok v =>
    match isArr v with
    | some xs => xs.mapM normKnowledgeCategoryItem
    | none => .ok []

/-- The try-block of normalizeAnalysisResult, field by field in source
order; any JS TypeError (member access on null) propagates as an error. -/
def normalizeCore (data : Json) : Except Unit AnalysisOutput :=
  match normSummary data with
  | .error e => .error e
  | .ok summary =>
    match normKeyPoints data with
    | .error e => .error e
    | .ok keyPoints =>
      match normKeywords data with
      | .error e => .error e
      | .ok keywords =>
        match normFullRecap data with
        | .error e => .error e
        | .ok fullRecap =>
          match normMainArguments data with
          | .error e => .error e
          | .ok mainArguments =>
            match normKnowledge data with
            | .error e => .error e
            | .ok knowledgePoints =>
              .ok ⟨summary, keyPoints, keywords, fullRecap, mainArguments,
                knowledgePoints⟩

/-- The catch-branch placeholder (src/audio/processor.ts lines 479-488). -/
def parseFailedOutput : AnalysisOutput :=
  ⟨"分析结果解析失败", [], [], "", [], []⟩

/-- normalizeAnalysisResult: none models a JSON.parse exception; an
internal TypeError also lands in the catch branch. -/
def normalizeAnalysisResult (parsed : Option Json) : AnalysisOutput :=
  match parsed with
  | none => parseFailedOutput
  | some data =>
    match normalizeCore data with
    | .ok out => out
    | .error _ => parseFailedOutput

/-- The parsed value of `{"summary":"hi","mainArguments":[null]}`: an
object missing keyPoints and keywords whose mainArguments array holds a
null element. -/
def nullArgObj : Json :=
  Json.obj [("summary", Json.str "hi"), ("mainArguments", Json.arr [Json.null])]

/-- Claim C6 counterexample: on a parseable JSON object missing keyPoints
and keywords but carrying a null element in mainArguments, the member
access `arg.title` throws inside the try-block, so the catch branch
returns the parse-failed placeholder — the present summary "hi" is NOT
returned, contradicting "the given summary if present" (no exception
escapes, and keyPoints/keywords are still empty). -/
theorem normalizeAnalysisResult_null_element :
    (normalizeAnalysisResult (some nullArgObj)).summary = "分析结果解析失败" ∧
    (normalizeAnalysisResult (some nullArgObj)).summary ≠ "hi" ∧
    (normalizeAnalysisResult (some nullArgObj)).keyPoints = [] ∧
    (normalizeAnalysisResult (some nullArgObj)).keywords = [] ∧
    objLookup [("summary", Json.str "hi"),
      ("mainArguments", Json.arr [Json.null])] "keyPoints" = none ∧
    objLookup [("summary", Json.str "hi"),
      ("mainArguments", Json.arr [Json.null])] "keywords" = none := by
  refine ⟨rfl, by decide, rfl, rfl, rfl, rfl⟩

lemma normKeyPoints_nonarray {fs : List (String × Json)}
    (h : isArr (objLookup fs "keyPoints") = none) :
    normKeyPoints (Json.obj fs) = .ok [] := by
  have hred : normKeyPoints (Json.obj fs)
      = (match isArr (objLookup fs "keyPoints") with
        | some xs => xs.mapM normKeyPoint
        | none => .ok []) := rfl
  rw [hred, h]

lemma normKeywords_nonarray {fs : List (String × Json)}
    (h : isArr (objLookup fs "keywords") = none) :
    normKeywords (Json.obj fs) = .ok [] := by
  have hred : normKeywords (Json.obj fs)
      = (match isArr (objLookup fs "keywords") with
        | some xs => xs.mapM normKeywordItem
        | none => .ok []) := rfl
  rw [hred, h]

/-- Claim C6 (amended): normalization is total — a parse failure (none)
yields the full placeholder output; a parseable object whose keyPoints
and keywords fail the Array.isArray test — because the keys are missing
or hold wrongly-typed (non-array) values — yields empty arrays for those
fields, and when the remaining fields normalize without an internal
TypeError the summary is the given one if present as a string, otherwise
the placeholder 分析结果不可用; when an internal TypeError occurs (e.g. a
null element in mainArguments) the catch branch yields the full
placeholder — in every case an AnalysisOutput is returned and no
exception propagates. -/
theorem normalizeAnalysisResult_total (fs : List (String × Json)) :
    normalizeAnalysisResult none = parseFailedOutput ∧
    (∀ out, normalizeCore (Json.obj fs) = .ok out →
      isArr (objLookup fs "keyPoints") = none →
      isArr (objLookup fs "keywords") = none →
      normalizeAnalysisResult (some (Json.obj fs)) = out ∧
      out.keyPoints = [] ∧ out.keywords = [] ∧
      out.summary = (isStr (objLookup fs "summary")).getD "分析结果不可用") ∧
    (normalizeCore (Json.obj fs) = .error () →
      normalizeAnalysisResult (some (Json.obj fs)) = parseFailedOutput) := by
  refine ⟨rfl, ?_, ?_⟩
  · intro out hok hkp hkw
    have hres : normalizeAnalysisResult (some (Json.obj fs)) = out := by
      unfold normalizeAnalysisResult
      dsimp only
      rw [hok]
    have hsum : normSummary (Json.obj fs)
        = .ok ((isStr (objLookup fs "summary")).getD "分析结果不可用") := rfl
    unfold normalizeCore at hok
    rw [hsum, normKeyPoints_nonarray hkp, normKeywords_nonarray hkw] at hok
    have hrec : normFullRecap (Json.obj fs)
        = .ok ((isStr (objLookup fs "fullRecap")).getD "") := rfl
    rw [hrec] at hok
    cases hma : normMainArguments (Json.obj fs) with
    | error e => rw [hma] at hok; exact absurd hok (by simp)
    | ok ma =>
      rw [hma] at hok
      cases hkn : normKnowledge (Json.obj fs) with
      | error e => rw [hkn] at hok; exact absurd hok (by simp)
      | ok kn =>
        rw [hkn] at hok
        have hout : out = ⟨(isStr (objLookup fs "summary")).getD "分析结果不可用",
            [], [], (isStr (objLookup fs "fullRecap")).getD "", ma, kn⟩ := by
          cases hok
          rfl
        subst hout
        exact ⟨hres, rfl, rfl, rfl⟩
  · intro herr
    unfold normalizeAnalysisResult
    dsimp only
    rw [herr]

/-- The fields of `{"summary":"hi","keyPoints":42,"keywords":"nope"}`:
keyPoints and keywords are present but wrongly typed (not arrays). -/
def wrongTypedFields : List (String × Json) :=
  [("summary", Json.str "hi"), ("keyPoints", Json.num 42),
    ("keywords", Json.str "nope")]

/-- Witness for the amended C6 at two concrete objects: `{"summary":"hi"}`
(keyPoints and keywords missing) and
`{"summary":"hi","keyPoints":42,"keywords":"nope"}` (keyPoints and
keywords present but wrongly typed) both normalize without an internal
error to summary "hi" with empty keyPoints and keywords; the hypotheses
of the theorem are discharged at both objects. -/
theorem normalizeAnalysisResult_total_witness :
    normalizeCore (Json.obj [("summary", Json.str "hi")])
      = .ok ⟨"hi", [], [], "", [], []⟩ ∧
    isArr (objLookup [("summary", Json.str "hi")] "keyPoints") = none ∧
    isArr (objLookup [("summary", Json.str "hi")] "keywords") = none ∧
    normalizeAnalysisResult (some (Json.obj [("summary", Json.str "hi")]))
      = ⟨"hi", [], [], "", [], []⟩ ∧
    normalizeCore (Json.obj wrongTypedFields)
      = .ok ⟨"hi", [], [], "", [], []⟩ ∧
    objLookup wrongTypedFields "keyPoints" = some (Json.num 42) ∧
    objLookup wrongTypedFields "keywords" = some (Json.str "nope") ∧
    isArr (objLookup wrongTypedFields "keyPoints") = none ∧
    isArr (objLookup wrongTypedFields "keywords") = none ∧
    normalizeAnalysisResult (some (Json.obj wrongTypedFields))
      = ⟨"hi", [], [], "", [], []⟩ := by
  have h := (normalizeAnalysisResult_total [("summary", Json.str "hi")]).2.1
    ⟨"hi", [], [], "", [], []⟩ rfl rfl rfl
  have h2 := (normalizeAnalysisResult_total wrongTypedFields).2.1
    ⟨"hi", [], [], "", [], []⟩ rfl rfl rfl
  exact ⟨rfl, rfl, rfl, h.1, rfl, rfl, rfl, rfl, rfl, h2.1⟩

/-! ### Claims C7-C10: the per-episode orchestrator and audit aggregation
(src/pipeline/processor.ts)

The database is a pure state (per-episode stored status and analysis
row); the remote/filesystem steps (download, transcription, analysis,
markdown rendering, row insertion) are oracles returning Except, so a
thrown step error is an `Except.error` with its message.  Wall-clock
fields (durationMs) and the JSON serialization of stored columns are
elided; the finally-block temp-file cleanup touches only the filesystem
and is not modelled. -/

inductive EpStatus
  | pending
  | processing
  | completed
  | failed
  deriving DecidableEq

/-- The episode fields consumed by processEpisode
(src/database/index.ts lines 22-33). -/
structure Episode where
  id : Nat
  title : String
  audio_url : Option String
  published_at : String
  duration_seconds : Option Nat

/-- The analysis row saved by processEpisode (lines 101-109); key_points
and keywords are stored structurally (JSON.stringify elided). -/
structure AnalysisRow where
  episode_id : Nat
  summary : String
  key_points : List KeyPoint
  keywords : List Keyword
  knowledge_points : String
  transcript : String
  markdown_path : String

/-- The stored state visible to the orchestrator. -/
structure DBState where
  statuses : Nat → EpStatus
  analyses : Nat → Option AnalysisRow

def DBState.updateEpisodeStatus (db : DBState) (id : Nat) (st : EpStatus) : DBState :=
  ⟨fun i => if i = id then st else db.statuses i, db.analyses⟩

def DBState.saveAnalysisResult (db : DBState) (row : AnalysisRow) : DBState :=
  ⟨db.statuses, fun i => if i = row.episode_id then some row else db.analyses i⟩

structure Transcription where
  text : String
  language : String

/-- The external collaborators of one episode job. -/
structure PipelineEnv where
  useDashScope : Bool
  download : String → Except String String
  transcribeLocal : String → Except String Transcription
  transcribeUrl : String → Except String Transcription
  analyze : String → Except String AnalysisOutput
  renderSave : String → AnalysisOutput → Except String String
  persist : AnalysisRow → Except String Unit

inductive StepCall
  | download
  | transcribe
  | analyze
  | render
  | persist
  deriving DecidableEq

/-- JS falsiness of the media locator (`!episode.audio_url`): absent or
empty string. -/
def noAudioUrl : Option String → Bool
  | none => true
  | some s => s == ""

inductive RStatus
  | success
  | failed
  | skipped
  deriving DecidableEq

/-- ProcessingResult (src/pipeline/processor.ts lines 12-19); durationMs
elided. -/
structure ProcessingResult where
  status : RStatus
  episodeId : Nat
  episodeTitle : String
  markdownPath : Option String
  error : Option String

/-- The try-block of processEpisode (lines 55-126): download and
transcription (or URL transcription under DashScope), the minimum-length
transcript check, analysis, markdown rendering/saving, and row
persistence, together with the list of external calls actually made. -/
def runSteps (env : PipelineEnv) (podcastName : String) (ep : Episode)
    (url : String) : Except String (AnalysisRow × String) × List StepCall :=
  match (if env.useDashScope then
      (env.transcribeUrl url, ([StepCall.transcribe] : List StepCall))
    else
      match env.download url with
      | .error e => (.error e, [StepCall.download])
      | .ok path =>
        (env.transcribeLocal path, [StepCall.download, StepCall.transcribe])) with
  | (.error e, calls) => (.error e, calls)
  | (.ok t, calls) =>
    if t.text.length < 50 then
      (.error "Transcription result too short or empty", calls)
    else
      match env.analyze t.text with
      | .error e => (.error e, calls ++ [StepCall.analyze])
      | .ok analysis =>
        match env.renderSave podcastName analysis with
        | .error e => (.error e, calls ++ [StepCall.analyze, StepCall.render])
        | .ok mdPath =>
          let row : AnalysisRow := ⟨ep.id, analysis.summary, analysis.keyPoints,
            analysis.keywords, analysis.fullRecap, t.text, mdPath⟩
          match env.persist row with
          | .error e =>
            (.error e, calls ++ [StepCall.analyze, StepCall.render, StepCall.persist])
          | .ok _ =>
            (.ok (row, mdPath),
              calls ++ [StepCall.analyze, StepCall.render, StepCall.persist])

/-- processEpisode (src/pipeline/processor.ts lines 21-150): idempotency
guard, media-locator guard, mark processing, run the steps, and on any
step error mark failed and surface the message. -/
def processEpisode (env : PipelineEnv) (db : DBState) (podcastName : String)
    (ep : Episode) : ProcessingResult × DBState × List StepCall :=
  match db.analyses ep.id with
  | some _ => (⟨.skipped, ep.id, ep.title, none, none⟩, db, [])
  | none =>
    if noAudioUrl ep.audio_url then
      (⟨.failed, ep.id, ep.title, none, some "No audio URL"⟩, db, [])
    else
      let db1 := db.updateEpisodeStatus ep.id .processing
      match runSteps env podcastName ep (ep.audio_url.getD "") with
      | (.error e, calls) =>
        (⟨.failed, ep.id, ep.title, none, some e⟩,
          db1.updateEpisodeStatus ep.id .failed, calls)
      | (.ok (row, mdPath), calls) =>
        (⟨.success, ep.id, ep.title, some mdPath, none⟩,
          (db1.saveAnalysisResult row).updateEpisodeStatus ep.id .completed, calls)

/-- Claim C7: when a stored analysis artifact already exists for the
episode, processEpisode returns a skipped result, leaves the stored state
entirely unchanged (no status change, no analysis saved or deleted), and
performs no external call — the idempotency guard for a second run on the
same episode. -/
theorem processEpisode_skipped (env : PipelineEnv) (db : DBState)
    (pn : String) (ep : Episode) (row : AnalysisRow)
    (h : db.analyses ep.id = some row) :
    (processEpisode env db pn ep).1.status = RStatus.skipped ∧
    (processEpisode env db pn ep).2.1 = db ∧
    (processEpisode env db pn ep).2.2 = [] := by
  unfold processEpisode
  rw [h]
  exact ⟨rfl, rfl, rfl⟩

-- Concrete artifacts for the orchestrator witnesses.
def row1 : AnalysisRow := ⟨1, "s", [], [], "r", "t", "m"⟩

def dbWithAnalysis : DBState :=
  ⟨fun _ => EpStatus.pending, fun i => if i = 1 then some row1 else none⟩

def dbEmpty : DBState := ⟨fun _ => EpStatus.pending, fun _ => none⟩

def epUrl1 : Episode := ⟨1, "ep1", some "http://x/a.mp3", "2026-01-01", none⟩

def epNoUrl : Episode := ⟨1, "ep1", none, "2026-01-01", none⟩

def okOutput : AnalysisOutput := ⟨"sum", [], [], "recap", [], []⟩

def envOk : PipelineEnv :=
  ⟨false, fun _ => Except.ok "tmp.mp3",
    fun _ => Except.ok ⟨String.mk (List.replicate 60 'a'), "zh"⟩,
    fun _ => Except.ok ⟨String.mk (List.replicate 60 'a'), "zh"⟩,
    fun _ => Except.ok okOutput, fun _ _ => Except.ok "out.md",
    fun _ => Except.ok ()⟩

def envNetFail : PipelineEnv :=
  ⟨true, fun _ => Except.error "net", fun _ => Except.error "net",
    fun _ => Except.error "Network timeout", fun _ => Except.error "x",
    fun _ _ => Except.error "x", fun _ => Except.error "x"⟩

/-- Witness for C7: a second run on an episode whose analysis row is
stored is skipped and mutates nothing. -/
theorem processEpisode_skipped_witness :
    dbWithAnalysis.analyses epUrl1.id = some row1 ∧
    (processEpisode envOk dbWithAnalysis "pod" epUrl1).1.status = RStatus.skipped ∧
    (processEpisode envOk dbWithAnalysis "pod" epUrl1).2.1 = dbWithAnalysis ∧
    (processEpisode envOk dbWithAnalysis "pod" epUrl1).2.2 = [] := by
  have h := processEpisode_skipped envOk dbWithAnalysis "pod" epUrl1 row1 rfl
  exact ⟨rfl, h.1, h.2.1, h.2.2⟩

/-- Claim C8 counterexample: for an episode with no media locator and no
stored analysis, processEpisode returns failed with error "No audio URL"
but does NOT mark the stored episode failed — it returns before any
status write, so the stored status remains pending, contradicting "marks
the episode failed". -/
theorem processEpisode_no_url_not_marked :
    (processEpisode envOk dbEmpty "pod" epNoUrl).1.status = RStatus.failed ∧
    (processEpisode envOk dbEmpty "pod" epNoUrl).1.error = some "No audio URL" ∧
    (processEpisode envOk dbEmpty "pod" epNoUrl).2.1.statuses 1 = EpStatus.pending ∧
    (processEpisode envOk dbEmpty "pod" epNoUrl).2.1.statuses 1 ≠ EpStatus.failed := by
  exact ⟨rfl, rfl, rfl, by decide⟩

/-- Claim C8 (amended): for an episode with a falsy media locator and no
stored analysis, processEpisode rejects immediately with status failed and
error "No audio URL", performs no external call, and leaves the stored
state completely untouched — in particular the status never passes
through processing (but it is not set to failed either). -/
theorem processEpisode_no_url (env : PipelineEnv) (db : DBState)
    (pn : String) (ep : Episode)
    (hA : db.analyses ep.id = none) (hU : noAudioUrl ep.audio_url = true) :
    (processEpisode env db pn ep).1.status = RStatus.failed ∧
    (processEpisode env db pn ep).1.error = some "No audio URL" ∧
    (processEpisode env db pn ep).2.1 = db ∧
    (processEpisode env db pn ep).2.2 = [] := by
  unfold processEpisode
  rw [hA]
  dsimp only
  rw [if_pos hU]
  exact ⟨rfl, rfl, rfl, rfl⟩

/-- Witness for the amended C8 at a concrete episode with a null locator. -/
theorem processEpisode_no_url_witness :
    dbEmpty.analyses epNoUrl.id = none ∧ noAudioUrl epNoUrl.audio_url = true ∧
    (processEpisode envOk dbEmpty "pod" epNoUrl).1.error = some "No audio URL" ∧
    (processEpisode envOk dbEmpty "pod" epNoUrl).2.1 = dbEmpty :=
  ⟨rfl, rfl, (processEpisode_no_url envOk dbEmpty "pod" epNoUrl rfl rfl).2.1,
    (processEpisode_no_url envOk dbEmpty "pod" epNoUrl rfl rfl).2.2.1⟩

/-- Claim C9: whenever any step after the episode is marked processing
throws (download, transcription, the too-short-transcript check, analysis,
rendering, or persistence — i.e. the step chain yields an error message),
processEpisode catches it, sets the stored status to failed, and returns a
failed result carrying exactly that message; it never rethrows, being a
total function into results. -/
theorem processEpisode_catch (env : PipelineEnv) (db : DBState)
    (pn : String) (ep : Episode) (m : String)
    (hA : db.analyses ep.id = none) (hU : noAudioUrl ep.audio_url = false)
    (hE : (runSteps env pn ep (ep.audio_url.getD "")).1 = .error m) :
    (processEpisode env db pn ep).1.status = RStatus.failed ∧
    (processEpisode env db pn ep).1.error = some m ∧
    (processEpisode env db pn ep).2.1.statuses ep.id = EpStatus.failed := by
  unfold processEpisode
  rw [hA]
  dsimp only
  rw [if_neg (by simp [hU])]
  rcases hrs : runSteps env pn ep (ep.audio_url.getD "") with ⟨res, calls⟩
  rw [hrs] at hE
  dsimp only at hE
  subst hE
  refine ⟨rfl, rfl, ?_⟩
  unfold DBState.updateEpisodeStatus
  simp

/-- Witness for C9: a DashScope-strategy run whose URL transcription
fails with "Network timeout" is converted to a failed result with that
message and the stored status failed. -/
theorem processEpisode_catch_witness :
    dbEmpty.analyses epUrl1.id = none ∧ noAudioUrl epUrl1.audio_url = false ∧
    (runSteps envNetFail "pod" epUrl1 (epUrl1.audio_url.getD "")).1
      = Except.error "Network timeout" ∧
    (processEpisode envNetFail dbEmpty "pod" epUrl1).1.error
      = some "Network timeout" ∧
    (processEpisode envNetFail dbEmpty "pod" epUrl1).2.1.statuses 1
      = EpStatus.failed := by
  have h := processEpisode_catch envNetFail dbEmpty "pod" epUrl1
    "Network timeout" rfl rfl rfl
  exact ⟨rfl, rfl, rfl, h.2.1, h.2.2⟩

/-! ### Claim C10: the audit record written by runFullPipeline -/

inductive TLStatus
  | completed
  | failed
  deriving DecidableEq

/-- The fields passed to db.updateTaskLog
(src/pipeline/processor.ts lines 245-251). -/
structure TaskLogUpdate where
  status : TLStatus
  total_episodes : Nat
  processed_episodes : Nat
  failed_episodes : Nat
  error_details : Option String

/-- The concatenated per-episode failure details (lines 240-243): failed
results with a truthy (present, non-empty) error, rendered
"[title] error" and joined with newlines. -/
def failedDetails (results : List ProcessingResult) : String :=
  String.intercalate "\n"
    ((results.filter (fun r => r.status == RStatus.failed &&
        (match r.error with | some e => decide (e ≠ "") | none => false))).map
      (fun r => "[" ++ r.episodeTitle ++ "] " ++ r.error.getD ""))

/-- The audit-record update computed at the end of runFullPipeline
(lines 236-251) from all per-episode results: status failed only when
there is at least one failure and no success; counts of all, successful
and failed results; error_details omitted (undefined) when the joined
detail string is empty. -/
def runFullPipelineLog (results : List ProcessingResult) : TaskLogUpdate :=
  let succeeded := (results.filter (fun r => r.status == RStatus.success)).length
  let failed := (results.filter (fun r => r.status == RStatus.failed)).length
  let details := failedDetails results
  ⟨if 0 < failed ∧ succeeded = 0 then .failed else .completed,
    results.length, succeeded, failed,
    if details == "" then none else some details⟩

lemma status_partition (results : List ProcessingResult) :
    results.length = (results.filter (fun r => r.status == RStatus.success)).length
      + (results.filter (fun r => r.status == RStatus.failed)).length
      + (results.filter (fun r => r.status == RStatus.skipped)).length := by
  induction results with
  | nil => rfl
  | cons r rs ih =>
    cases hs : r.status <;> simp [List.filter_cons, hs] <;> omega

/-- Claim C10: the audit record is failed iff some episode result failed
and none succeeded (so a run with both successes and failures, and a run
with zero episodes, are recorded completed); total/processed/failed count
all, successful and failed results respectively; and skipped episodes are
counted only in the total — the total is exactly successes + failures +
skips, with no separate skip field stored. -/
theorem runFullPipelineLog_spec (results : List ProcessingResult) :
    ((runFullPipelineLog results).status = TLStatus.failed ↔
      ((∃ r ∈ results, r.status = RStatus.failed) ∧
        ∀ r ∈ results, r.status ≠ RStatus.success)) ∧
    (runFullPipelineLog results).total_episodes = results.length ∧
    (runFullPipelineLog results).processed_episodes
      = (results.filter (fun r => r.status == RStatus.success)).length ∧
    (runFullPipelineLog results).failed_episodes
      = (results.filter (fun r => r.status == RStatus.failed)).length ∧
    (runFullPipelineLog results).total_episodes
      = (runFullPipelineLog results).processed_episodes
        + (runFullPipelineLog results).failed_episodes
        + (results.filter (fun r => r.status == RStatus.skipped)).length ∧
    (results = [] → (runFullPipelineLog results).status = TLStatus.completed) ∧
    ((∃ r ∈ results, r.status = RStatus.success) →
      (∃ r ∈ results, r.status = RStatus.failed) →
      (runFullPipelineLog results).status = TLStatus.completed) := by
  have hfail : 0 < (results.filter (fun r => r.status == RStatus.failed)).length ↔
      ∃ r ∈ results, r.status = RStatus.failed := by
    simp [List.length_pos_iff_exists_mem, List.mem_filter]
  have hsucc : (results.filter (fun r => r.status == RStatus.success)).length = 0 ↔
      ∀ r ∈ results, r.status ≠ RStatus.success := by
    simp [List.length_eq_zero, List.filter_eq_nil]
  refine ⟨?_, rfl, rfl, rfl, status_partition results, ?_, ?_⟩
  · unfold runFullPipelineLog
    dsimp only
    by_cases hc : 0 < (results.filter (fun r => r.status == RStatus.failed)).length ∧
        (results.filter (fun r => r.status == RStatus.success)).length = 0
    · rw [if_pos hc]
      exact ⟨fun _ => ⟨hfail.mp hc.1, hsucc.mp hc.2⟩, fun _ => rfl⟩
    · rw [if_neg hc]
      constructor
      · intro habs
        exact absurd habs (by decide)
      · intro hcontra
        exact absurd ⟨hfail.mpr hcontra.1, hsucc.mpr hcontra.2⟩ hc
  · intro h
    subst h
    rfl
  · intro hs hf
    unfold runFullPipelineLog
    dsimp only
    rw [if_neg]
    intro hc
    exact (hsucc.mp hc.2) _ hs.choose_spec.1 (hs.choose_spec.2)

def resS : ProcessingResult := ⟨RStatus.success, 1, "a", some "m", none⟩

def resF : ProcessingResult := ⟨RStatus.failed, 2, "b", none, some "boom"⟩

def resK : ProcessingResult := ⟨RStatus.skipped, 3, "c", none, none⟩

/-- Witness for C10: a run with one success, one failure and one skip is
recorded completed with total 3, processed 1, failed 1; a run with zero
episodes is recorded completed. -/
theorem runFullPipelineLog_spec_witness :
    (∃ r ∈ [resS, resF, resK], r.status = RStatus.success) ∧
    (∃ r ∈ [resS, resF, resK], r.status = RStatus.failed) ∧
    (runFullPipelineLog [resS, resF, resK]).status = TLStatus.completed ∧
    (runFullPipelineLog []).status = TLStatus.completed ∧
    (runFullPipelineLog [resS, resF, resK]).total_episodes = 3 ∧
    (runFullPipelineLog [resS, resF, resK]).processed_episodes = 1 ∧
    (runFullPipelineLog [resS, resF, resK]).failed_episodes = 1 := by
  refine ⟨⟨resS, by simp, rfl⟩, ⟨resF, by simp, rfl⟩, ?_, ?_, rfl, rfl, rfl⟩
  · exact (runFullPipelineLog_spec [resS, resF, resK]).2.2.2.2.2.2
      ⟨resS, by simp, rfl⟩ ⟨resF, by simp, rfl⟩
  · exact (runFullPipelineLog_spec []).2.2.2.2.2.1 rfl

end PodcastDigest
